import Mathlib

/-!
# Verification of the TwinSecure ingestion/enrichment/alerting subsystem

Shallow embedding, in Lean 4, of the parts of the TwinSecure backend that the
specification makes claims about:

* `RateLimiter` (`backend/app/services/rate_limiter.py`): a sliding-window-log
  rate limiter keyed by string, with `check_rate_limit`, `get_remaining_requests`
  and `get_reset_time`.
* `ResponseCache` (`backend/app/middleware/cache_middleware.py`): a bounded
  TTL cache over an insertion-ordered map (Python `dict`), with earliest-expiry
  eviction on `set` at capacity.
* `AlertingClient.send_alert` (`backend/app/services/alerting/client.py`):
  per-channel dispatch where a channel exception is converted to `False`.
* `get_abuseipdb_score` (`backend/app/services/enrichment/abuseipdb.py`):
  reputation lookup, modelled over an abstract HTTP outcome.
* `_get_geoip_data_sync` / `get_geoip_data`
  (`backend/app/services/enrichment/geoip.py`): geo lookup memoised by an
  `lru_cache` keyed by the raw IP string.
* The `/honeypot` ingestion endpoint
  (`backend/app/api/api_v1/endpoints/honeypot.py`) together with the pydantic
  `IPvAnyAddress` field of `HoneypotData` (`backend/app/schemas/honeypot.py`),
  including an executable embedding of Python's `ipaddress` textual parsing.

Timestamps (`datetime.now()`, `time.time()`) are modelled as integers; Python
dictionaries are modelled as insertion-ordered association lists so that
iteration-order-sensitive operations (`min` over keys) are captured exactly.
-/

set_option autoImplicit false

namespace TwinSecure

/-! ## Association lists modelling Python `dict`

A Python `dict` preserves insertion order: assignment to a fresh key appends,
assignment to an existing key updates in place, `del` removes the single
binding.  We model a dict as a `List (String × α)` with unique keys.
-/

/-- First value bound to `k`, scanning in insertion order (`d[k]` / `k in d`). -/
def lookupKey {α : Type} : List (String × α) → String → Option α
  | [], _ => none
  | (k', v) :: rest, k => if k' = k then some v else lookupKey rest k

/-- Remove the first binding of `k` (`del d[k]`). -/
def eraseKey {α : Type} : List (String × α) → String → List (String × α)
  | [], _ => []
  | (k', v) :: rest, k => if k' = k then rest else (k', v) :: eraseKey rest k

/-- Dict assignment `d[k] = v`: update in place if present, else append. -/
def insertOrUpdate {α : Type} : List (String × α) → String → α → List (String × α)
  | [], k, v => [(k, v)]
  | (k', v') :: rest, k, v =>
    if k' = k then (k, v) :: rest else (k', v') :: insertOrUpdate rest k v

@[simp] theorem lookupKey_nil {α : Type} (k : String) :
    lookupKey ([] : List (String × α)) k = none := rfl

@[simp] theorem lookupKey_cons {α : Type} (k' k : String) (v : α) (rest : List (String × α)) :
    lookupKey ((k', v) :: rest) k = if k' = k then some v else lookupKey rest k := rfl

@[simp] theorem eraseKey_nil {α : Type} (k : String) :
    eraseKey ([] : List (String × α)) k = [] := rfl

@[simp] theorem eraseKey_cons {α : Type} (k' k : String) (v : α) (rest : List (String × α)) :
    eraseKey ((k', v) :: rest) k =
      if k' = k then rest else (k', v) :: eraseKey rest k := rfl

theorem length_eraseKey_of_lookup {α : Type} :
    ∀ (l : List (String × α)) (k : String) (v : α),
      lookupKey l k = some v → (eraseKey l k).length + 1 = l.length := by
  intro l
  induction l with
  | nil => intro k v h; simp at h
  | cons p rest ih =>
    intro k v h
    obtain ⟨k', v'⟩ := p
    by_cases hk : k' = k
    · rw [eraseKey_cons, if_pos hk, List.length_cons]
    · rw [lookupKey_cons, if_neg hk] at h
      rw [eraseKey_cons, if_neg hk, List.length_cons, List.length_cons,
        ih k v h]

theorem eraseKey_sublist {α : Type} :
    ∀ (l : List (String × α)) (k : String), (eraseKey l k).Sublist l := by
  intro l
  induction l with
  | nil => intro k; simp
  | cons p rest ih =>
    intro k
    obtain ⟨k', v'⟩ := p
    by_cases hk : k' = k
    · rw [eraseKey_cons, if_pos hk]
      exact List.sublist_cons_self _ _
    · rw [eraseKey_cons, if_neg hk]
      exact (ih k).cons₂ (k', v')

theorem lookupKey_eq_none_of_not_mem {α : Type} :
    ∀ (l : List (String × α)) (k : String), k ∉ l.map Prod.fst → lookupKey l k = none := by
  intro l
  induction l with
  | nil => intro k _; simp
  | cons p rest ih =>
    intro k hk
    obtain ⟨k', v'⟩ := p
    simp only [List.map_cons, List.mem_cons, not_or] at hk
    rw [lookupKey_cons, if_neg (Ne.symm hk.1)]
    exact ih k hk.2

theorem lookupKey_eraseKey_of_nodup {α : Type} :
    ∀ (l : List (String × α)) (k : String),
      (l.map Prod.fst).Nodup → lookupKey (eraseKey l k) k = none := by
  intro l
  induction l with
  | nil => intro k _; simp
  | cons p rest ih =>
    intro k hnd
    obtain ⟨k', v'⟩ := p
    have hnd' : k' ∉ rest.map Prod.fst ∧ (rest.map Prod.fst).Nodup := by
      simpa using hnd
    by_cases hk : k' = k
    · subst hk
      rw [eraseKey_cons, if_pos rfl]
      exact lookupKey_eq_none_of_not_mem rest k' hnd'.1
    · rw [eraseKey_cons, if_neg hk, lookupKey_cons, if_neg hk]
      exact ih k hnd'.2

theorem lookupKey_eraseKey_ne {α : Type} :
    ∀ (l : List (String × α)) (k k' : String), k ≠ k' →
      lookupKey (eraseKey l k) k' = lookupKey l k' := by
  intro l
  induction l with
  | nil => intro k k' _; simp
  | cons p rest ih =>
    intro k k' hne
    obtain ⟨ka, va⟩ := p
    by_cases hk : ka = k
    · have hka : ka ≠ k' := by rw [hk]; exact hne
      rw [eraseKey_cons, if_pos hk, lookupKey_cons, if_neg hka]
    · rw [eraseKey_cons, if_neg hk, lookupKey_cons, lookupKey_cons]
      by_cases hk' : ka = k'
      · rw [if_pos hk', if_pos hk']
      · rw [if_neg hk', if_neg hk']
        exact ih k k' hne

@[simp] theorem insertOrUpdate_nil {α : Type} (k : String) (v : α) :
    insertOrUpdate ([] : List (String × α)) k v = [(k, v)] := rfl

@[simp] theorem insertOrUpdate_cons {α : Type} (k' k : String) (v' v : α)
    (rest : List (String × α)) :
    insertOrUpdate ((k', v') :: rest) k v =
      if k' = k then (k, v) :: rest else (k', v') :: insertOrUpdate rest k v := rfl

theorem insertOrUpdate_of_lookup_none {α : Type} :
    ∀ (l : List (String × α)) (k : String) (v : α),
      lookupKey l k = none → insertOrUpdate l k v = l ++ [(k, v)] := by
  intro l
  induction l with
  | nil => intro k v _; rfl
  | cons p rest ih =>
    intro k v h
    obtain ⟨k', v'⟩ := p
    by_cases hk : k' = k
    · rw [lookupKey_cons, if_pos hk] at h
      exact absurd h (by simp)
    · rw [lookupKey_cons, if_neg hk] at h
      rw [insertOrUpdate_cons, if_neg hk, List.cons_append, ih k v h]

theorem length_insertOrUpdate_of_lookup_some {α : Type} :
    ∀ (l : List (String × α)) (k : String) (v w : α),
      lookupKey l k = some w → (insertOrUpdate l k v).length = l.length := by
  intro l
  induction l with
  | nil => intro k v w h; simp at h
  | cons p rest ih =>
    intro k v w h
    obtain ⟨k', v'⟩ := p
    by_cases hk : k' = k
    · rw [insertOrUpdate_cons, if_pos hk, List.length_cons, List.length_cons]
    · rw [lookupKey_cons, if_neg hk] at h
      rw [insertOrUpdate_cons, if_neg hk, List.length_cons, List.length_cons,
        ih k v w h]

theorem lookupKey_insertOrUpdate_self {α : Type} :
    ∀ (l : List (String × α)) (k : String) (v : α),
      lookupKey (insertOrUpdate l k v) k = some v := by
  intro l
  induction l with
  | nil => intro k v; rw [insertOrUpdate_nil, lookupKey_cons, if_pos rfl]
  | cons p rest ih =>
    intro k v
    obtain ⟨k', v'⟩ := p
    by_cases hk : k' = k
    · rw [insertOrUpdate_cons, if_pos hk, lookupKey_cons, if_pos rfl]
    · rw [insertOrUpdate_cons, if_neg hk, lookupKey_cons, if_neg hk]
      exact ih k v

theorem lookupKey_insertOrUpdate_ne {α : Type} :
    ∀ (l : List (String × α)) (k k' : String) (v : α), k ≠ k' →
      lookupKey (insertOrUpdate l k v) k' = lookupKey l k' := by
  intro l
  induction l with
  | nil =>
    intro k k' v hne
    rw [insertOrUpdate_nil, lookupKey_cons, if_neg hne]
  | cons p rest ih =>
    intro k k' v hne
    obtain ⟨ka, va⟩ := p
    by_cases hk : ka = k
    · have hka : ka ≠ k' := by rw [hk]; exact hne
      rw [insertOrUpdate_cons, if_pos hk, lookupKey_cons, if_neg hne,
        lookupKey_cons, if_neg hka]
    · rw [insertOrUpdate_cons, if_neg hk, lookupKey_cons, lookupKey_cons]
      by_cases hk' : ka = k'
      · rw [if_pos hk', if_pos hk']
      · rw [if_neg hk', if_neg hk']
        exact ih k k' v hne

theorem map_fst_insertOrUpdate_of_lookup_some {α : Type} :
    ∀ (l : List (String × α)) (k : String) (v w : α),
      lookupKey l k = some w →
      (insertOrUpdate l k v).map Prod.fst = l.map Prod.fst := by
  intro l
  induction l with
  | nil => intro k v w h; simp at h
  | cons p rest ih =>
    intro k v w h
    obtain ⟨k', v'⟩ := p
    by_cases hk : k' = k
    · rw [insertOrUpdate_cons, if_pos hk, List.map_cons, List.map_cons, hk]
    · rw [lookupKey_cons, if_neg hk] at h
      rw [insertOrUpdate_cons, if_neg hk, List.map_cons, List.map_cons,
        ih k v w h]

theorem not_mem_map_fst_of_lookup_none {α : Type} :
    ∀ (l : List (String × α)) (k : String),
      lookupKey l k = none → k ∉ l.map Prod.fst := by
  intro l
  induction l with
  | nil => intro k _; simp
  | cons p rest ih =>
    intro k h
    obtain ⟨k', v'⟩ := p
    by_cases hk : k' = k
    · simp [hk] at h
    · simp only [lookupKey_cons, if_neg hk] at h
      simp only [List.map_cons, List.mem_cons, not_or]
      exact ⟨fun hh => hk hh.symm, ih k h⟩

theorem nodup_insertOrUpdate {α : Type} :
    ∀ (l : List (String × α)) (k : String) (v : α),
      (l.map Prod.fst).Nodup → ((insertOrUpdate l k v).map Prod.fst).Nodup := by
  intro l k v hnd
  rcases h : lookupKey l k with _ | w
  · rw [insertOrUpdate_of_lookup_none l k v h]
    simp only [List.map_append, List.map_cons, List.map_nil]
    rw [List.nodup_append]
    refine ⟨hnd, List.nodup_singleton _, ?_⟩
    intro a ha hb
    simp only [List.mem_singleton] at hb
    subst hb
    exact not_mem_map_fst_of_lookup_none l a h ha
  · rw [map_fst_insertOrUpdate_of_lookup_some l k v w h]
    exact hnd


/-! ## RateLimiter (`backend/app/services/rate_limiter.py`)

`datetime.now()` instants are modelled as integers (`now`), passed explicitly.
`timedelta(seconds=w)` becomes integer subtraction.  The per-key dictionary
`self.requests` is modelled as a total function defaulting to `[]`: the Python
code initialises a missing key to `[]` before use, treats a missing key the
same as an empty list in `get_remaining_requests` and `get_reset_time`, and
`reset` writes `[]` — so absence and the empty list are observationally equal.
-/

structure RateLimiter where
  max_requests : Nat
  time_window : Int
  requests : String → List Int

/-- Embeds `RateLimiter.__init__(max_requests, time_window)`. -/
def RateLimiter.init (maxRequests : Nat) (timeWindow : Int) : RateLimiter :=
  ⟨maxRequests, timeWindow, fun _ => []⟩

/-- Embeds `RateLimiter.check_rate_limit(key)` at instant `now`: prune entries with
`t <= now - time_window` (Python keeps `t > window_start`), store the pruned
list, refuse without appending when `len >= max_requests`, else append `now`. -/
def RateLimiter.check_rate_limit (rl : RateLimiter) (key : String) (now : Int) :
    Bool × RateLimiter :=
  let window_start := now - rl.time_window
  let kept := (rl.requests key).filter (fun t => window_start < t)
  if rl.max_requests ≤ kept.length then
    (false, { rl with requests := fun k => if k = key then kept else rl.requests k })
  else
    (true, { rl with requests := fun k => if k = key then kept ++ [now] else rl.requests k })

/-- Embeds `RateLimiter.get_remaining_requests(key)` at instant `now`: prune, store,
and return `max(0, max_requests - len)`; `Nat` subtraction is exactly
`max(0, ·)`. -/
def RateLimiter.get_remaining_requests (rl : RateLimiter) (key : String) (now : Int) :
    Nat × RateLimiter :=
  let kept := (rl.requests key).filter (fun t => now - rl.time_window < t)
  (rl.max_requests - kept.length,
    { rl with requests := fun k => if k = key then kept else rl.requests k })

/-- Embeds `RateLimiter.get_reset_time(key)`: `None` when no instants are recorded,
otherwise `min(self.requests[key]) + timedelta(seconds=self.time_window)`. -/
def RateLimiter.get_reset_time (rl : RateLimiter) (key : String) : Option Int :=
  if (rl.requests key).isEmpty then none
  else ((rl.requests key).min?).map (fun t => t + rl.time_window)

/-- Run a sequence of `check_rate_limit` calls for one key, collecting the
returned booleans and threading the limiter state. -/
def runChecks (rl : RateLimiter) (key : String) : List Int → List Bool × RateLimiter
  | [] => ([], rl)
  | t :: ts =>
    let r := rl.check_rate_limit key t
    let rest := runChecks r.2 key ts
    (r.1 :: rest.1, rest.2)

/-- The boolean pattern produced by a run of checks that never prunes:
`true` while the window length is below `max_requests`, then `false`. -/
def expectedResults (maxReq len k : Nat) : List Bool :=
  match k with
  | 0 => []
  | k + 1 =>
    if len < maxReq then true :: expectedResults maxReq (len + 1) k
    else false :: expectedResults maxReq len k

theorem check_rate_limit_true (rl : RateLimiter) (key : String) (now : Int)
    (hfresh : ∀ t ∈ rl.requests key, now - rl.time_window < t)
    (hlen : (rl.requests key).length < rl.max_requests) :
    rl.check_rate_limit key now =
      (true, { rl with requests :=
        fun k => if k = key then rl.requests key ++ [now] else rl.requests k }) := by
  unfold RateLimiter.check_rate_limit
  have hf : (rl.requests key).filter (fun t => decide (now - rl.time_window < t))
      = rl.requests key :=
    List.filter_eq_self.mpr (fun a ha => decide_eq_true (hfresh a ha))
  simp only [hf]
  rw [if_neg (not_le.mpr hlen)]

theorem check_rate_limit_false (rl : RateLimiter) (key : String) (now : Int)
    (hfresh : ∀ t ∈ rl.requests key, now - rl.time_window < t)
    (hlen : rl.max_requests ≤ (rl.requests key).length) :
    rl.check_rate_limit key now =
      (false, { rl with requests :=
        fun k => if k = key then rl.requests key else rl.requests k }) := by
  unfold RateLimiter.check_rate_limit
  have hf : (rl.requests key).filter (fun t => decide (now - rl.time_window < t))
      = rl.requests key :=
    List.filter_eq_self.mpr (fun a ha => decide_eq_true (hfresh a ha))
  simp only [hf]
  rw [if_pos hlen]

/-- Core invariant of a run of checks whose instants are all inside one
rolling window: nothing is ever pruned, the results follow
`expectedResults`, and exactly the first `max_requests - len` instants are
appended. -/
theorem runChecks_fresh :
    ∀ (ts : List Int) (rl : RateLimiter) (key : String),
      (∀ t ∈ rl.requests key, ∀ u ∈ ts, u - rl.time_window < t) →
      (∀ a ∈ ts, ∀ b ∈ ts, a - rl.time_window < b) →
      (runChecks rl key ts).1
          = expectedResults rl.max_requests (rl.requests key).length ts.length ∧
      (runChecks rl key ts).2.requests key
          = rl.requests key ++ ts.take (rl.max_requests - (rl.requests key).length) ∧
      (runChecks rl key ts).2.max_requests = rl.max_requests ∧
      (runChecks rl key ts).2.time_window = rl.time_window := by
  intro ts
  induction ts with
  | nil =>
    intro rl key _ _
    refine ⟨rfl, ?_, rfl, rfl⟩
    simp [runChecks]
  | cons u rest ih =>
    intro rl key h1 h2
    have hufresh : ∀ t ∈ rl.requests key, u - rl.time_window < t :=
      fun t ht => h1 t ht u (List.mem_cons_self u rest)
    by_cases hlen : (rl.requests key).length < rl.max_requests
    · -- allowed: now appended
      have hstep := check_rate_limit_true rl key u hufresh hlen
      set rl' : RateLimiter :=
        { rl with requests :=
            fun k => if k = key then rl.requests key ++ [u] else rl.requests k } with hrl'
      have hreq' : rl'.requests key = rl.requests key ++ [u] := by
        simp [hrl']
      have hih := ih rl' key ?_ ?_
      · have hrun : runChecks rl key (u :: rest)
            = (true :: (runChecks rl' key rest).1, (runChecks rl' key rest).2) := by
          simp [runChecks, hstep]
        refine ⟨?_, ?_, ?_, ?_⟩
        · rw [hrun]
          simp only [List.length_cons]
          rw [expectedResults, if_pos hlen]
          have := hih.1
          rw [hreq'] at this
          simp only [List.length_append, List.length_singleton] at this
          rw [this]
        · rw [hrun]
          have := hih.2.1
          rw [hreq'] at this
          simp only [List.length_append, List.length_singleton] at this
          rw [this]
          have harith : rl.max_requests - (rl.requests key).length
              = (rl.max_requests - ((rl.requests key).length + 1)) + 1 := by omega
          rw [harith, List.take_succ_cons, List.append_assoc, List.singleton_append]
        · rw [hrun]; exact hih.2.2.1
        · rw [hrun]; exact hih.2.2.2
      · -- existing plus the appended instant stay fresh for the remaining checks
        intro t ht v hv
        rw [hreq'] at ht
        rcases List.mem_append.mp ht with hta | hu
        · exact h1 t hta v (List.mem_cons_of_mem u hv)
        · rw [List.mem_singleton.mp hu]
          exact h2 v (List.mem_cons_of_mem u hv) u (List.mem_cons_self u rest)
      · intro a ha b hb
        exact h2 a (List.mem_cons_of_mem u ha) b (List.mem_cons_of_mem u hb)
    · -- refused: window unchanged
      push_neg at hlen
      have hstep := check_rate_limit_false rl key u hufresh hlen
      set rl' : RateLimiter :=
        { rl with requests :=
            fun k => if k = key then rl.requests key else rl.requests k } with hrl'
      have hreq' : rl'.requests key = rl.requests key := by
        simp [hrl']
      have hih := ih rl' key ?_ ?_
      · have hrun : runChecks rl key (u :: rest)
            = (false :: (runChecks rl' key rest).1, (runChecks rl' key rest).2) := by
          simp [runChecks, hstep]
        refine ⟨?_, ?_, ?_, ?_⟩
        · rw [hrun]
          simp only [List.length_cons]
          rw [expectedResults, if_neg (not_lt.mpr hlen)]
          have := hih.1
          rw [hreq'] at this
          rw [this]
        · rw [hrun]
          have := hih.2.1
          rw [hreq'] at this
          rw [this]
          have hzero : rl.max_requests - (rl.requests key).length = 0 := by omega
          rw [hzero]
          simp
        · rw [hrun]; exact hih.2.2.1
        · rw [hrun]; exact hih.2.2.2
      · intro t ht v hv
        rw [hreq'] at ht
        exact h1 t ht v (List.mem_cons_of_mem u hv)
      · intro a ha b hb
        exact h2 a (List.mem_cons_of_mem u ha) b (List.mem_cons_of_mem u hb)

theorem expectedResults_run :
    ∀ (d maxReq len : Nat), maxReq - len = d → len ≤ maxReq →
      expectedResults maxReq len (d + 1) = List.replicate d true ++ [false] := by
  intro d
  induction d with
  | zero =>
    intro maxReq len hd _
    have : ¬ len < maxReq := by omega
    rw [expectedResults, if_neg this]
    rfl
  | succ d ih =>
    intro maxReq len hd hle
    have hlt : len < maxReq := by omega
    rw [expectedResults, if_pos hlt, ih maxReq (len + 1) (by omega) (by omega)]
    rfl

theorem length_filter_lt_of_mem_not {α : Type} (p : α → Bool) :
    ∀ (l : List α) (a : α), a ∈ l → p a = false → (l.filter p).length < l.length := by
  intro l
  induction l with
  | nil => intro a ha _; simp at ha
  | cons x xs ih =>
    intro a ha hpa
    rcases List.mem_cons.mp ha with hax | haxs
    · subst hax
      rw [List.filter_cons_of_neg (by simp [hpa])]
      exact Nat.lt_succ_of_le (List.length_filter_le p xs)
    · cases hx : p x with
      | true =>
        rw [List.filter_cons_of_pos hx]
        exact Nat.succ_lt_succ (ih a haxs hpa)
      | false =>
        rw [List.filter_cons_of_neg (by simp [hx])]
        exact Nat.lt_succ_of_lt (ih a haxs hpa)

/-- C1: with `max_requests = N` and `time_window = W`, a fresh limiter grants
exactly the first `N` of `N + 1` checks that all fall inside one rolling
`W`-second span and refuses the last; immediately afterwards
`get_remaining_requests` reports `0`; and after waiting strictly past
`get_reset_time`, a subsequent check is granted again. -/
theorem rateLimiter_exact_window_C1 (N : Nat) (W : Int) (key : String) (ts : List Int)
    (hlen : ts.length = N + 1)
    (hspan : ∀ a ∈ ts, ∀ b ∈ ts, a - W < b) :
    (runChecks (RateLimiter.init N W) key ts).1 = List.replicate N true ++ [false] ∧
    (∀ u, (∀ a ∈ ts, u - W < a) →
      ((runChecks (RateLimiter.init N W) key ts).2.get_remaining_requests key u).1 = 0) ∧
    (∀ r, (runChecks (RateLimiter.init N W) key ts).2.get_reset_time key = some r →
      ∀ u, r < u →
        ((runChecks (RateLimiter.init N W) key ts).2.check_rate_limit key u).1 = true) := by
  have h0 : (RateLimiter.init N W).requests key = [] := rfl
  have hmr : (RateLimiter.init N W).max_requests = N := rfl
  have hrun := runChecks_fresh ts (RateLimiter.init N W) key
    (fun t ht => absurd ht (List.not_mem_nil t)) hspan
  obtain ⟨hres, hwin, hmax, hW⟩ := hrun
  rw [hmr] at hmax
  rw [h0, hmr] at hres hwin
  simp only [List.length_nil, Nat.sub_zero, List.nil_append] at hres hwin
  rw [hlen] at hres
  have hwlen : ((runChecks (RateLimiter.init N W) key ts).2.requests key).length = N := by
    rw [hwin, List.length_take, hlen]
    omega
  have hsub : ∀ a ∈ (runChecks (RateLimiter.init N W) key ts).2.requests key, a ∈ ts := by
    intro a ha
    rw [hwin] at ha
    exact List.mem_of_mem_take ha
  refine ⟨?_, ?_, ?_⟩
  · rw [hres]
    exact expectedResults_run N N 0 (by omega) (by omega)
  · intro u hu
    have hkeep : ((runChecks (RateLimiter.init N W) key ts).2.requests key).filter
        (fun t => decide (u - (runChecks (RateLimiter.init N W) key ts).2.time_window < t))
        = (runChecks (RateLimiter.init N W) key ts).2.requests key := by
      refine List.filter_eq_self.mpr (fun a ha => decide_eq_true ?_)
      rw [hW]
      exact hu a (hsub a ha)
    simp only [RateLimiter.get_remaining_requests, hkeep, hwlen, hmax]
    omega
  · intro r hr u hru
    simp only [RateLimiter.get_reset_time] at hr
    by_cases hempty : ((runChecks (RateLimiter.init N W) key ts).2.requests key).isEmpty
    · rw [if_pos hempty] at hr
      exact absurd hr (by simp)
    · rw [if_neg hempty] at hr
      obtain ⟨m, hmin, hrm⟩ := Option.map_eq_some'.mp hr
      have hm_mem := List.min?_mem (fun a b : Int => min_choice a b) hmin
      have hm_le : ∀ b ∈ (runChecks (RateLimiter.init N W) key ts).2.requests key, m ≤ b :=
        fun b hb =>
          (List.le_min?_iff (fun a b c : Int => le_min_iff) hmin).mp (le_refl m) b hb
      -- the oldest instant falls out of the window at time u
      have hmW : m + (runChecks (RateLimiter.init N W) key ts).2.time_window < u := by
        omega
      have hdrop :
          decide (u - (runChecks (RateLimiter.init N W) key ts).2.time_window < m)
          = false := by
        simp only [decide_eq_false_iff_not, not_lt]
        omega
      have hflt := length_filter_lt_of_mem_not
        (fun t => decide (u - (runChecks (RateLimiter.init N W) key ts).2.time_window < t))
        _ m hm_mem hdrop
      rw [hwlen] at hflt
      simp only [RateLimiter.check_rate_limit]
      rw [hmax, if_neg (by omega)]

/-- Witness for C1 at the spec's concrete scenario `maxRequests=2,
windowSeconds=60`, three checks at instants 0, 1, 2, and a retry at 61. -/
theorem rateLimiter_exact_window_C1_witness :
    (runChecks (RateLimiter.init 2 60) "k" [0, 1, 2]).1 = [true, true, false] ∧
    ((runChecks (RateLimiter.init 2 60) "k" [0, 1, 2]).2.get_remaining_requests "k" 2).1 = 0 ∧
    ((runChecks (RateLimiter.init 2 60) "k" [0, 1, 2]).2.check_rate_limit "k" 61).1 = true := by
  have h := rateLimiter_exact_window_C1 2 60 "k" [0, 1, 2] (by decide) (by decide)
  refine ⟨?_, h.2.1 2 (by decide), h.2.2 60 (by decide) 61 (by decide)⟩
  rw [h.1]
  rfl

/-- C7: `check_rate_limit` refuses exactly when the pruned window already has
`max_requests` entries, and then stores the pruned window unchanged (the
refused attempt is not recorded); when it grants, it appends exactly the one
instant `now`, and afterwards the window holds at most `max_requests`
non-expired instants. -/
theorem rateLimiter_check_invariant_C7 (rl : RateLimiter) (key : String) (now : Int) :
    ((rl.check_rate_limit key now).1 = false ↔
      rl.max_requests ≤
        ((rl.requests key).filter (fun t => decide (now - rl.time_window < t))).length) ∧
    ((rl.check_rate_limit key now).1 = false →
      (rl.check_rate_limit key now).2.requests key
        = (rl.requests key).filter (fun t => decide (now - rl.time_window < t))) ∧
    ((rl.check_rate_limit key now).1 = true →
      (rl.check_rate_limit key now).2.requests key
        = (rl.requests key).filter (fun t => decide (now - rl.time_window < t)) ++ [now]) ∧
    ((rl.check_rate_limit key now).1 = false →
      ((rl.check_rate_limit key now).2.requests key).length ≤ (rl.requests key).length) ∧
    ((rl.check_rate_limit key now).1 = true →
      (((rl.check_rate_limit key now).2.requests key).filter
          (fun t => decide (now - rl.time_window < t))).length ≤ rl.max_requests) := by
  by_cases h : rl.max_requests ≤
      ((rl.requests key).filter (fun t => decide (now - rl.time_window < t))).length
  · have hfst : (rl.check_rate_limit key now).1 = false := by
      simp only [RateLimiter.check_rate_limit]
      rw [if_pos h]
    have hsnd : (rl.check_rate_limit key now).2.requests key
        = (rl.requests key).filter (fun t => decide (now - rl.time_window < t)) := by
      simp only [RateLimiter.check_rate_limit]
      rw [if_pos h]
      simp
    refine ⟨by simp [hfst, h], fun _ => hsnd, ?_, ?_, ?_⟩
    · intro htrue
      rw [hfst] at htrue
      exact absurd htrue (by simp)
    · intro _
      rw [hsnd]
      exact List.length_filter_le _ _
    · intro htrue
      rw [hfst] at htrue
      exact absurd htrue (by simp)
  · have hfst : (rl.check_rate_limit key now).1 = true := by
      simp only [RateLimiter.check_rate_limit]
      rw [if_neg h]
    have hsnd : (rl.check_rate_limit key now).2.requests key
        = (rl.requests key).filter (fun t => decide (now - rl.time_window < t)) ++ [now] := by
      simp only [RateLimiter.check_rate_limit]
      rw [if_neg h]
      simp
    refine ⟨by simp [hfst, h], ?_, fun _ => hsnd, ?_, ?_⟩
    · intro hfalse
      rw [hfst] at hfalse
      exact absurd hfalse (by simp)
    · intro hfalse
      rw [hfst] at hfalse
      exact absurd hfalse (by simp)
    · intro _
      rw [hsnd]
      calc ((((rl.requests key).filter
              (fun t => decide (now - rl.time_window < t))) ++ [now]).filter
            (fun t => decide (now - rl.time_window < t))).length
          ≤ (((rl.requests key).filter
              (fun t => decide (now - rl.time_window < t))) ++ [now]).length :=
            List.length_filter_le _ _
        _ = ((rl.requests key).filter
              (fun t => decide (now - rl.time_window < t))).length + 1 := by simp
        _ ≤ rl.max_requests := by omega

/-- Witness for C7: a fresh limiter grants a check and records exactly the
one instant. -/
theorem rateLimiter_check_invariant_C7_witness :
    ((RateLimiter.init 2 60).check_rate_limit "k" 5).1 = true ∧
    ((RateLimiter.init 2 60).check_rate_limit "k" 5).2.requests "k"
      = ((RateLimiter.init 2 60).requests "k").filter
          (fun t => decide (5 - (RateLimiter.init 2 60).time_window < t)) ++ [5] :=
  ⟨by decide,
    (rateLimiter_check_invariant_C7 (RateLimiter.init 2 60) "k" 5).2.2.1 (by decide)⟩

/-- C9: `get_reset_time(key)` is `None` exactly when no instants are recorded
for the key, and otherwise returns the oldest recorded instant plus
`time_window`. -/
theorem rateLimiter_reset_time_C9 (rl : RateLimiter) (key : String) :
    (rl.get_reset_time key = none ↔ rl.requests key = []) ∧
    (∀ r, rl.get_reset_time key = some r →
      ∃ m, m ∈ rl.requests key ∧ (∀ t ∈ rl.requests key, m ≤ t) ∧
        r = m + rl.time_window) := by
  constructor
  · unfold RateLimiter.get_reset_time
    by_cases h : (rl.requests key).isEmpty
    · rw [if_pos h]
      simp [List.isEmpty_iff.mp h]
    · rw [if_neg h]
      constructor
      · intro hmap
        exact List.min?_eq_none_iff.mp (Option.map_eq_none'.mp hmap)
      · intro hnil
        rw [hnil]
        rfl
  · intro r hr
    unfold RateLimiter.get_reset_time at hr
    by_cases h : (rl.requests key).isEmpty
    · rw [if_pos h] at hr
      exact absurd hr (by simp)
    · rw [if_neg h] at hr
      obtain ⟨m, hmin, hrm⟩ := Option.map_eq_some'.mp hr
      exact ⟨m, List.min?_mem (fun a b : Int => min_choice a b) hmin,
        fun t ht =>
          (List.le_min?_iff (fun a b c : Int => le_min_iff) hmin).mp (le_refl m) t ht,
        hrm.symm⟩

/-- Witness for C9: a key with recorded instants `[5, 3, 9]` resets at
`3 + 60 = 63`. -/
theorem rateLimiter_reset_time_C9_witness :
    ∃ m, m ∈ (RateLimiter.mk 2 60 (fun _ => [5, 3, 9])).requests "k" ∧
      (∀ t ∈ (RateLimiter.mk 2 60 (fun _ => [5, 3, 9])).requests "k", m ≤ t) ∧
      (63 : Int) = m + (RateLimiter.mk 2 60 (fun _ => [5, 3, 9])).time_window :=
  (rateLimiter_reset_time_C9 (RateLimiter.mk 2 60 (fun _ => [5, 3, 9])) "k").2 63 (by decide)

/-! ## ResponseCache (`backend/app/middleware/cache_middleware.py`)

`time.time()` is modelled as an integer instant passed explicitly.  The cache
dict is an insertion-ordered association list (see above), so the Python
expression `min(self.cache.keys(), key=lambda k: self.cache[k]["expires_at"])`
— which returns the *first* key attaining the minimal expiry in iteration
order — is modelled exactly by a left fold that replaces the current best
only on a strictly smaller expiry.

`set` returns `Option`: `none` models the `ValueError` that `min()` raises on
an empty dict (reachable only when `max_size = 0`).
-/

structure CacheEntry (V : Type) where
  data : V
  expires_at : Int
deriving DecidableEq

structure ResponseCache (V : Type) where
  cache : List (String × CacheEntry V)
  max_size : Nat
  default_ttl : Int
  hits : Nat
  misses : Nat
deriving DecidableEq

/-- Embeds `ResponseCache.__init__(max_size, default_ttl)`. -/
def ResponseCache.empty (V : Type) (maxSize : Nat) (defaultTtl : Int) : ResponseCache V :=
  ⟨[], maxSize, defaultTtl, 0, 0⟩

/-- Embeds `ResponseCache.get(key)` at instant `now`: miss (and count it) when the
key is absent; when present, the entry is stale iff `expires_at < now`
(strict, as in the Python comparison `item["expires_at"] < time.time()`), in
which case it is deleted and counted as a miss; otherwise a hit. -/
def ResponseCache.get {V : Type} (c : ResponseCache V) (key : String) (now : Int) :
    Option V × ResponseCache V :=
  match lookupKey c.cache key with
  | none => (none, { c with misses := c.misses + 1 })
  | some item =>
    if item.expires_at < now then
      (none, { c with cache := eraseKey c.cache key, misses := c.misses + 1 })
    else
      (some item.data, { c with hits := c.hits + 1 })

/-- Python `ttl or self.default_ttl`: `None` and the falsy `0` both fall back
to the default. -/
def ttlOrDefault {V : Type} (c : ResponseCache V) (ttl : Option Int) : Int :=
  match ttl with
  | none => c.default_ttl
  | some t => if t = 0 then c.default_ttl else t

/-- One step of Python's `min(..., key=...)`: keep the current best unless
the next element's expiry is strictly smaller. -/
def pickEarlier {V : Type} (best q : String × CacheEntry V) : String × CacheEntry V :=
  if q.2.expires_at < best.2.expires_at then q else best

/-- Embeds `min(self.cache.keys(), key=lambda k: self.cache[k]["expires_at"])`
together with the entry it maps to; `none` iff the dict is empty (Python
raises `ValueError` there). -/
def minByExpires {V : Type} : List (String × CacheEntry V) → Option (String × CacheEntry V)
  | [] => none
  | p :: rest => some (rest.foldl pickEarlier p)

/-- Embeds `ResponseCache.set(key, value, ttl)` at instant `now`: when at capacity,
evict the entry with the earliest `expires_at` first, then bind
`key ↦ (value, now + ttl)`. -/
def ResponseCache.set {V : Type} (c : ResponseCache V) (key : String) (value : V)
    (ttl : Option Int) (now : Int) : Option (ResponseCache V) :=
  if c.max_size ≤ c.cache.length then
    match minByExpires c.cache with
    | none => none
    | some ev =>
      some { c with cache :=
        insertOrUpdate (eraseKey c.cache ev.1) key ⟨value, now + ttlOrDefault c ttl⟩ }
  else
    some { c with cache := insertOrUpdate c.cache key ⟨value, now + ttlOrDefault c ttl⟩ }

/-- Iterated `set` with per-call key, value and instant (`ttl=None`). -/
def setMany {V : Type} : ResponseCache V → List (String × V × Int) → Option (ResponseCache V)
  | c, [] => some c
  | c, (k, v, now) :: rest =>
    match c.set k v none now with
    | none => none
    | some c' => setMany c' rest

theorem pickEarlier_exp_le_left {V : Type} (b q : String × CacheEntry V) :
    (pickEarlier b q).2.expires_at ≤ b.2.expires_at := by
  unfold pickEarlier
  split
  · omega
  · exact le_refl _

theorem pickEarlier_exp_le_right {V : Type} (b q : String × CacheEntry V) :
    (pickEarlier b q).2.expires_at ≤ q.2.expires_at := by
  unfold pickEarlier
  split
  · exact le_refl _
  · omega

theorem pickEarlier_eq_or {V : Type} (b q : String × CacheEntry V) :
    pickEarlier b q = b ∨ pickEarlier b q = q := by
  unfold pickEarlier
  split
  · exact Or.inr rfl
  · exact Or.inl rfl

theorem foldl_pickEarlier_mem {V : Type} :
    ∀ (rest : List (String × CacheEntry V)) (p : String × CacheEntry V),
      rest.foldl pickEarlier p ∈ p :: rest := by
  intro rest
  induction rest with
  | nil => intro p; simp
  | cons q qs ih =>
    intro p
    rw [List.foldl_cons]
    have hmem := ih (pickEarlier p q)
    rcases List.mem_cons.mp hmem with h1 | h2
    · rcases pickEarlier_eq_or p q with hb | hq2
      · rw [h1, hb]
        exact List.mem_cons_self _ _
      · rw [h1, hq2]
        exact List.mem_cons_of_mem p (List.mem_cons_self q qs)
    · exact List.mem_cons_of_mem p (List.mem_cons_of_mem q h2)

theorem foldl_pickEarlier_le {V : Type} :
    ∀ (rest : List (String × CacheEntry V)) (p : String × CacheEntry V),
      ∀ x ∈ p :: rest, (rest.foldl pickEarlier p).2.expires_at ≤ x.2.expires_at := by
  intro rest
  induction rest with
  | nil =>
    intro p x hx
    have hxp : x = p := by simpa using hx
    rw [List.foldl_nil, hxp]
  | cons r rs ih =>
    intro p x hx
    rw [List.foldl_cons]
    have hbase : (rs.foldl pickEarlier (pickEarlier p r)).2.expires_at
        ≤ (pickEarlier p r).2.expires_at :=
      ih (pickEarlier p r) (pickEarlier p r) (List.mem_cons_self _ _)
    rcases List.mem_cons.mp hx with h1 | hrest
    · rw [h1]
      exact hbase.trans (pickEarlier_exp_le_left p r)
    · rcases List.mem_cons.mp hrest with h2 | h3
      · rw [h2]
        exact hbase.trans (pickEarlier_exp_le_right p r)
      · exact ih (pickEarlier p r) x (List.mem_cons_of_mem _ h3)

theorem minByExpires_mem {V : Type} {l : List (String × CacheEntry V)}
    {ev : String × CacheEntry V} (h : minByExpires l = some ev) : ev ∈ l := by
  cases l with
  | nil => simp [minByExpires] at h
  | cons p rest =>
    have : rest.foldl pickEarlier p = ev := by
      simpa [minByExpires] using h
    rw [← this]
    exact foldl_pickEarlier_mem rest p

theorem minByExpires_min {V : Type} {l : List (String × CacheEntry V)}
    {ev : String × CacheEntry V} (h : minByExpires l = some ev) :
    ∀ q ∈ l, ev.2.expires_at ≤ q.2.expires_at := by
  cases l with
  | nil => simp [minByExpires] at h
  | cons p rest =>
    have : rest.foldl pickEarlier p = ev := by
      simpa [minByExpires] using h
    rw [← this]
    exact foldl_pickEarlier_le rest p

theorem minByExpires_isSome {V : Type} {l : List (String × CacheEntry V)}
    (h : l ≠ []) : ∃ ev, minByExpires l = some ev := by
  cases l with
  | nil => exact absurd rfl h
  | cons p rest => exact ⟨rest.foldl pickEarlier p, rfl⟩

theorem lookupKey_of_mem_of_nodup {α : Type} :
    ∀ (l : List (String × α)) (k : String) (e : α),
      (l.map Prod.fst).Nodup → (k, e) ∈ l → lookupKey l k = some e := by
  intro l
  induction l with
  | nil => intro k e _ hm; simp at hm
  | cons p rest ih =>
    intro k e hnd hm
    obtain ⟨k', v'⟩ := p
    have hnd' : k' ∉ rest.map Prod.fst ∧ (rest.map Prod.fst).Nodup := by
      simpa using hnd
    rcases List.mem_cons.mp hm with h | h
    · obtain ⟨hk, he⟩ := Prod.mk.injEq .. ▸ h
      rw [lookupKey_cons, if_pos hk.symm ]
      rw [he]
    · by_cases hk : k' = k
      · exfalso
        apply hnd'.1
        rw [hk]
        exact List.mem_map.mpr ⟨(k, e), h, rfl⟩
      · rw [lookupKey_cons, if_neg hk]
        exact ih k e hnd'.2 h


/-- A concrete one-entry cache used to exercise `get` at the expiry boundary:
the entry for `"k"` expires at instant 5. -/
def c2CacheExample : ResponseCache Nat := ⟨[("k", ⟨7, 5⟩)], 10, 60, 0, 0⟩

/-- C2 counterexample: at `now` equal to the entry's `expires_at` — the
claim's "expiry time has been reached" (`now >= expiresAt`) — `get` still
returns the stored value, does not delete the entry, and counts a hit, so
the claim as stated is false: Python compares `expires_at < time.time()`
strictly. -/
theorem cache_get_expiry_C2_counterexample :
    (5 : Int) ≥ 5 ∧
    (c2CacheExample.get "k" 5).1 = some 7 ∧
    (c2CacheExample.get "k" 5).2.cache.length = 1 ∧
    (c2CacheExample.get "k" 5).2.misses = 0 ∧
    (c2CacheExample.get "k" 5).2.hits = 1 := by
  decide

/-- C2 (amended): an entry is stale only *strictly* past its expiry.  For
every key whose entry satisfies `expires_at < now`, `get` returns a miss,
increments the miss counter, deletes the entry (size drops by one, key no
longer present); and `get` never returns an entry with `expires_at < now` —
at `now = expires_at` the entry is still returned. -/
theorem cache_get_strict_expiry_C2 {V : Type} (c : ResponseCache V) (key : String)
    (now : Int) (hnd : (c.cache.map Prod.fst).Nodup) :
    (∀ e, lookupKey c.cache key = some e → e.expires_at < now →
      (c.get key now).1 = none ∧
      (c.get key now).2.misses = c.misses + 1 ∧
      (c.get key now).2.cache.length + 1 = c.cache.length ∧
      lookupKey (c.get key now).2.cache key = none) ∧
    (∀ v, (c.get key now).1 = some v →
      ∃ e, lookupKey c.cache key = some e ∧ now ≤ e.expires_at ∧ v = e.data) := by
  rcases hl : lookupKey c.cache key with _ | item
  · constructor
    · intro e he
      exact absurd he (by simp)
    · intro v hv
      have hget : c.get key now = (none, { c with misses := c.misses + 1 }) := by
        unfold ResponseCache.get
        rw [hl]
      rw [hget] at hv
      exact absurd hv (by simp)
  · have hget0 : c.get key now = if item.expires_at < now then
        (none, { c with cache := eraseKey c.cache key, misses := c.misses + 1 })
      else (some item.data, { c with hits := c.hits + 1 }) := by
      unfold ResponseCache.get
      rw [hl]
    by_cases hexp : item.expires_at < now
    · rw [if_pos hexp] at hget0
      constructor
      · intro e he hlt
        refine ⟨by rw [hget0], by rw [hget0], ?_, ?_⟩
        · rw [hget0]
          exact length_eraseKey_of_lookup c.cache key item hl
        · rw [hget0]
          exact lookupKey_eraseKey_of_nodup c.cache key hnd
      · intro v hv
        rw [hget0] at hv
        exact absurd hv (by simp)
    · rw [if_neg hexp] at hget0
      constructor
      · intro e he hlt
        rw [← Option.some.inj he] at hlt
        exact absurd hlt hexp
      · intro v hv
        rw [hget0] at hv
        exact ⟨item, rfl, not_lt.mp hexp, (Option.some.inj hv).symm⟩

/-- Witness for the amended C2: one instant past expiry, the entry for `"k"`
is dropped and a miss is counted. -/
theorem cache_get_strict_expiry_C2_witness :
    (c2CacheExample.get "k" 6).1 = none ∧
    (c2CacheExample.get "k" 6).2.misses = c2CacheExample.misses + 1 ∧
    (c2CacheExample.get "k" 6).2.cache.length + 1 = c2CacheExample.cache.length ∧
    lookupKey (c2CacheExample.get "k" 6).2.cache "k" = none :=
  (cache_get_strict_expiry_C2 c2CacheExample "k" 6 (by decide)).1 ⟨7, 5⟩ (by decide)
    (by decide)


/-- The updated cache record produced by one `set` call, factored out so that
structure literals stay on one line in proofs. -/
def ResponseCache.withCache {V : Type} (c : ResponseCache V)
    (l : List (String × CacheEntry V)) : ResponseCache V :=
  { c with cache := l }

theorem set_at_capacity {V : Type} (c : ResponseCache V) (key : String) (v : V)
    (ttl : Option Int) (now : Int) (ev : String × CacheEntry V)
    (hcap : c.max_size ≤ c.cache.length)
    (hev : minByExpires c.cache = some ev) :
    c.set key v ttl now = some (c.withCache
      (insertOrUpdate (eraseKey c.cache ev.1) key ⟨v, now + ttlOrDefault c ttl⟩)) := by
  unfold ResponseCache.set ResponseCache.withCache
  rw [if_pos hcap, hev]

theorem set_below_capacity {V : Type} (c : ResponseCache V) (key : String) (v : V)
    (ttl : Option Int) (now : Int)
    (hcap : ¬ c.max_size ≤ c.cache.length) :
    c.set key v ttl now = some (c.withCache
      (insertOrUpdate c.cache key ⟨v, now + ttlOrDefault c ttl⟩)) := by
  unfold ResponseCache.set ResponseCache.withCache
  rw [if_neg hcap]

@[simp] theorem withCache_cache {V : Type} (c : ResponseCache V)
    (l : List (String × CacheEntry V)) : (c.withCache l).cache = l := rfl

@[simp] theorem withCache_max_size {V : Type} (c : ResponseCache V)
    (l : List (String × CacheEntry V)) : (c.withCache l).max_size = c.max_size := rfl

/-- Inserting a fresh key below capacity appends; at capacity the earliest
expiry is evicted first.  Threading this through `setMany` from any
well-formed cache state: the final size is `min (start + inserts) max_size`. -/
theorem setMany_spec {V : Type} :
    ∀ (inserts : List (String × V × Int)) (c : ResponseCache V),
      0 < c.max_size →
      c.cache.length ≤ c.max_size →
      (c.cache.map Prod.fst).Nodup →
      (inserts.map (fun i => i.1)).Nodup →
      (∀ k ∈ inserts.map (fun i => i.1), lookupKey c.cache k = none) →
      ∃ c', setMany c inserts = some c' ∧
        c'.cache.length = min (c.cache.length + inserts.length) c.max_size := by
  intro inserts
  induction inserts with
  | nil =>
    intro c _ hle _ _ _
    refine ⟨c, rfl, ?_⟩
    simp only [List.length_nil]
    omega
  | cons ins rest ih =>
    obtain ⟨k, v, now⟩ := ins
    intro c hpos hle hnd hindnd hfresh
    have hkfresh : lookupKey c.cache k = none := hfresh k (by simp)
    obtain ⟨hknotin, hindnd'⟩ :
        k ∉ rest.map (fun i => i.1) ∧ (rest.map (fun i => i.1)).Nodup := by
      simpa using hindnd
    by_cases hcap : c.max_size ≤ c.cache.length
    · -- at capacity: one eviction keeps the size at max_size
      have hfull : c.cache.length = c.max_size := le_antisymm hle hcap
      have hne : c.cache ≠ [] := by
        intro h0
        rw [h0] at hfull
        simp at hfull
        omega
      obtain ⟨ev, hev⟩ := minByExpires_isSome hne
      have hevmem : ev ∈ c.cache := minByExpires_mem hev
      have hevlookup : lookupKey c.cache ev.1 = some ev.2 :=
        lookupKey_of_mem_of_nodup c.cache ev.1 ev.2 hnd (by rw [Prod.mk.eta]; exact hevmem)
      have hkne : k ≠ ev.1 := by
        intro hkev
        rw [hkev, hevlookup] at hkfresh
        exact absurd hkfresh (by simp)
      have hplen : (eraseKey c.cache ev.1).length + 1 = c.cache.length :=
        length_eraseKey_of_lookup c.cache ev.1 ev.2 hevlookup
      have hpnodup : ((eraseKey c.cache ev.1).map Prod.fst).Nodup :=
        List.Nodup.sublist (List.Sublist.map Prod.fst (eraseKey_sublist c.cache ev.1)) hnd
      have hpk : lookupKey (eraseKey c.cache ev.1) k = none := by
        rw [lookupKey_eraseKey_ne c.cache ev.1 k (Ne.symm hkne)]
        exact hkfresh
      have hset := set_at_capacity c k v none now ev hcap hev
      have hinslen : (insertOrUpdate (eraseKey c.cache ev.1) k
          (⟨v, now + ttlOrDefault c none⟩ : CacheEntry V)).length = c.max_size := by
        rw [insertOrUpdate_of_lookup_none _ _ _ hpk, List.length_append,
          List.length_singleton]
        omega
      have hc₁nodup : ((insertOrUpdate (eraseKey c.cache ev.1) k
          (⟨v, now + ttlOrDefault c none⟩ : CacheEntry V)).map Prod.fst).Nodup :=
        nodup_insertOrUpdate _ k _ hpnodup
      have hc₁fresh : ∀ k' ∈ rest.map (fun i => i.1),
          lookupKey (insertOrUpdate (eraseKey c.cache ev.1) k
            (⟨v, now + ttlOrDefault c none⟩ : CacheEntry V)) k' = none := by
        intro k' hk'
        have hk'ne : k ≠ k' := fun h => hknotin (h ▸ hk')
        rw [lookupKey_insertOrUpdate_ne _ k k' _ hk'ne]
        by_cases hk'ev : ev.1 = k'
        · rw [← hk'ev]
          exact lookupKey_eraseKey_of_nodup c.cache ev.1 hnd
        · rw [lookupKey_eraseKey_ne c.cache ev.1 k' hk'ev]
          exact hfresh k' (by simp [hk'])
      obtain ⟨c', hrun, hlen'⟩ := ih
        (c.withCache (insertOrUpdate (eraseKey c.cache ev.1) k ⟨v, now + ttlOrDefault c none⟩))
        hpos (by simp [withCache_cache, withCache_max_size, hinslen]) hc₁nodup hindnd' hc₁fresh
      refine ⟨c', ?_, ?_⟩
      · show setMany c ((k, v, now) :: rest) = some c'
        unfold setMany
        rw [hset]
        exact hrun
      · rw [hlen']
        simp only [List.length_cons, withCache_cache, withCache_max_size, hinslen]
        omega
    · -- below capacity: plain append
      have hset := set_below_capacity c k v none now hcap
      push_neg at hcap
      have hinslen : (insertOrUpdate c.cache k
          (⟨v, now + ttlOrDefault c none⟩ : CacheEntry V)).length = c.cache.length + 1 := by
        rw [insertOrUpdate_of_lookup_none _ _ _ hkfresh, List.length_append,
          List.length_singleton]
      have hc₁nodup : ((insertOrUpdate c.cache k
          (⟨v, now + ttlOrDefault c none⟩ : CacheEntry V)).map Prod.fst).Nodup :=
        nodup_insertOrUpdate _ k _ hnd
      have hc₁fresh : ∀ k' ∈ rest.map (fun i => i.1),
          lookupKey (insertOrUpdate c.cache k
            (⟨v, now + ttlOrDefault c none⟩ : CacheEntry V)) k' = none := by
        intro k' hk'
        have hk'ne : k ≠ k' := fun h => hknotin (h ▸ hk')
        rw [lookupKey_insertOrUpdate_ne _ k k' _ hk'ne]
        exact hfresh k' (by simp [hk'])
      obtain ⟨c', hrun, hlen'⟩ := ih
        (c.withCache (insertOrUpdate c.cache k ⟨v, now + ttlOrDefault c none⟩))
        hpos (by simp only [withCache_cache, withCache_max_size, hinslen]; omega) hc₁nodup hindnd' hc₁fresh
      refine ⟨c', ?_, ?_⟩
      · show setMany c ((k, v, now) :: rest) = some c'
        unfold setMany
        rw [hset]
        exact hrun
      · rw [hlen']
        simp only [List.length_cons, withCache_cache, withCache_max_size, hinslen]
        omega


/-- C3: when `set` is called on a full cache (`len = max_size`, necessarily
with at least one entry), the evicted entry is one with the earliest
`expires_at` among all present entries — it is a member, its expiry is
minimal, and (when distinct from the inserted key) it is gone afterwards
while the new key is bound and the size stays within `max_size`; and:
starting from an empty cache with `0 < max_size = M`, inserting at least `M`
distinct keys leaves exactly `M` entries. -/
theorem cache_set_evicts_earliest_C3 :
    (∀ (V : Type) (c : ResponseCache V) (key : String) (v : V) (ttl : Option Int)
        (now : Int),
      (c.cache.map Prod.fst).Nodup →
      c.cache.length = c.max_size →
      c.cache ≠ [] →
      ∃ ev, minByExpires c.cache = some ev ∧ ev ∈ c.cache ∧
        (∀ q ∈ c.cache, ev.2.expires_at ≤ q.2.expires_at) ∧
        ∃ c', c.set key v ttl now = some c' ∧
          lookupKey c'.cache key = some ⟨v, now + ttlOrDefault c ttl⟩ ∧
          (ev.1 ≠ key → lookupKey c'.cache ev.1 = none) ∧
          c'.cache.length ≤ c.max_size) ∧
    (∀ (V : Type) (M : Nat) (ttl0 : Int) (inserts : List (String × V × Int)),
      0 < M →
      (inserts.map (fun i => i.1)).Nodup →
      M ≤ inserts.length →
      ∃ c', setMany (ResponseCache.empty V M ttl0) inserts = some c' ∧
        c'.cache.length = M) := by
  constructor
  · intro V c key v ttl now hnd hfull hne
    obtain ⟨ev, hev⟩ := minByExpires_isSome hne
    have hevmem : ev ∈ c.cache := minByExpires_mem hev
    have hevmin := minByExpires_min hev
    have hevlookup : lookupKey c.cache ev.1 = some ev.2 :=
      lookupKey_of_mem_of_nodup c.cache ev.1 ev.2 hnd (by rw [Prod.mk.eta]; exact hevmem)
    have hcap : c.max_size ≤ c.cache.length := le_of_eq hfull.symm
    have hset := set_at_capacity c key v ttl now ev hcap hev
    have hplen : (eraseKey c.cache ev.1).length + 1 = c.cache.length :=
      length_eraseKey_of_lookup c.cache ev.1 ev.2 hevlookup
    refine ⟨ev, hev, hevmem, hevmin, _, hset, ?_, ?_, ?_⟩
    · rw [withCache_cache]
      exact lookupKey_insertOrUpdate_self _ key _
    · intro hne2
      rw [withCache_cache, lookupKey_insertOrUpdate_ne _ key ev.1 _ (Ne.symm hne2)]
      exact lookupKey_eraseKey_of_nodup c.cache ev.1 hnd
    · rw [withCache_cache]
      rcases hlp : lookupKey (eraseKey c.cache ev.1) key with _ | w
      · rw [insertOrUpdate_of_lookup_none _ _ _ hlp, List.length_append,
          List.length_singleton]
        omega
      · rw [length_insertOrUpdate_of_lookup_some _ _ _ w hlp]
        omega
  · intro V M ttl0 inserts hpos hindnd hlen
    obtain ⟨c', hrun, hlen'⟩ := setMany_spec inserts (ResponseCache.empty V M ttl0)
      hpos (by simp [ResponseCache.empty]) (by simp [ResponseCache.empty]) hindnd
      (fun k _ => rfl)
    refine ⟨c', hrun, ?_⟩
    rw [hlen']
    show min (List.length [] + inserts.length) M = M
    simp only [List.length_nil]
    omega

/-- Witness for C3 at a concrete full cache of capacity 2 and a run of three
distinct inserts into an empty cache of capacity 2. -/
theorem cache_set_evicts_earliest_C3_witness :
    (∃ ev, minByExpires (ResponseCache.mk [("a", ⟨1, 10⟩), ("b", ⟨2, 20⟩)] 2 60 0 0 :
          ResponseCache Nat).cache = some ev ∧
        ev ∈ (ResponseCache.mk [("a", ⟨1, 10⟩), ("b", ⟨2, 20⟩)] 2 60 0 0 :
          ResponseCache Nat).cache ∧
        (∀ q ∈ (ResponseCache.mk [("a", ⟨1, 10⟩), ("b", ⟨2, 20⟩)] 2 60 0 0 :
          ResponseCache Nat).cache, ev.2.expires_at ≤ q.2.expires_at) ∧
        ∃ c', (ResponseCache.mk [("a", ⟨1, 10⟩), ("b", ⟨2, 20⟩)] 2 60 0 0 :
            ResponseCache Nat).set "c" 3 none 0 = some c' ∧
          lookupKey c'.cache "c" = some ⟨3, 0 + ttlOrDefault
            (ResponseCache.mk [("a", ⟨1, 10⟩), ("b", ⟨2, 20⟩)] 2 60 0 0 :
              ResponseCache Nat) none⟩ ∧
          (ev.1 ≠ "c" → lookupKey c'.cache ev.1 = none) ∧
          c'.cache.length ≤ (ResponseCache.mk [("a", ⟨1, 10⟩), ("b", ⟨2, 20⟩)] 2 60 0 0 :
            ResponseCache Nat).max_size) ∧
    (∃ c', setMany (ResponseCache.empty Nat 2 60)
        [("a", 1, 0), ("b", 2, 1), ("c", 3, 2)] = some c' ∧ c'.cache.length = 2) :=
  ⟨cache_set_evicts_earliest_C3.1 Nat
      (ResponseCache.mk [("a", ⟨1, 10⟩), ("b", ⟨2, 20⟩)] 2 60 0 0) "c" 3 none 0
      (by decide) (by decide) (by decide),
    cache_set_evicts_earliest_C3.2 Nat 2 60 [("a", 1, 0), ("b", 2, 1), ("c", 3, 2)]
      (by decide) (by decide) (by decide)⟩

/-- C10: on a full cache (`len = max_size`), `set` with an *already present*
key still evicts the entry with the earliest `expires_at`.  When that victim
is a different key, the update removes it, rebinds the updated key, leaves
every other entry unchanged, and the cache ends up strictly below
`max_size` (`len = max_size - 1`). -/
theorem cache_set_update_at_capacity_C10 {V : Type} (c : ResponseCache V) (key : String)
    (v : V) (ttl : Option Int) (now : Int) (e₀ : CacheEntry V)
    (ev : String × CacheEntry V)
    (hnd : (c.cache.map Prod.fst).Nodup)
    (hfull : c.cache.length = c.max_size)
    (hkey : lookupKey c.cache key = some e₀)
    (hev : minByExpires c.cache = some ev) :
    ∃ c', c.set key v ttl now = some c' ∧
      lookupKey c'.cache key = some ⟨v, now + ttlOrDefault c ttl⟩ ∧
      (∀ k', k' ≠ key → k' ≠ ev.1 → lookupKey c'.cache k' = lookupKey c.cache k') ∧
      (ev.1 ≠ key →
        c'.cache.length + 1 = c.max_size ∧ lookupKey c'.cache ev.1 = none) := by
  have hcap : c.max_size ≤ c.cache.length := le_of_eq hfull.symm
  have hset := set_at_capacity c key v ttl now ev hcap hev
  have hevmem : ev ∈ c.cache := minByExpires_mem hev
  have hevlookup : lookupKey c.cache ev.1 = some ev.2 :=
    lookupKey_of_mem_of_nodup c.cache ev.1 ev.2 hnd (by rw [Prod.mk.eta]; exact hevmem)
  have hplen : (eraseKey c.cache ev.1).length + 1 = c.cache.length :=
    length_eraseKey_of_lookup c.cache ev.1 ev.2 hevlookup
  refine ⟨_, hset, ?_, ?_, ?_⟩
  · rw [withCache_cache]
    exact lookupKey_insertOrUpdate_self _ key _
  · intro k' hk'key hk'ev
    rw [withCache_cache, lookupKey_insertOrUpdate_ne _ key k' _ (Ne.symm hk'key),
      lookupKey_eraseKey_ne c.cache ev.1 k' (Ne.symm hk'ev)]
  · intro hne2
    constructor
    · rw [withCache_cache]
      have hkeypruned : lookupKey (eraseKey c.cache ev.1) key = some e₀ := by
        rw [lookupKey_eraseKey_ne c.cache ev.1 key hne2]
        exact hkey
      rw [length_insertOrUpdate_of_lookup_some _ _ _ e₀ hkeypruned]
      omega
    · rw [withCache_cache, lookupKey_insertOrUpdate_ne _ key ev.1 _ (Ne.symm hne2)]
      exact lookupKey_eraseKey_of_nodup c.cache ev.1 hnd

/-- Witness for C10: updating `"b"` in a full 2-entry cache evicts `"a"`
(earliest expiry) and leaves a single entry. -/
theorem cache_set_update_at_capacity_C10_witness :
    ∃ c', (ResponseCache.mk [("a", ⟨1, 10⟩), ("b", ⟨2, 20⟩)] 2 60 0 0 :
        ResponseCache Nat).set "b" 5 none 0 = some c' ∧
      lookupKey c'.cache "b" = some ⟨5, 0 + ttlOrDefault
        (ResponseCache.mk [("a", ⟨1, 10⟩), ("b", ⟨2, 20⟩)] 2 60 0 0 :
          ResponseCache Nat) none⟩ ∧
      (∀ k', k' ≠ "b" → k' ≠ ("a", (⟨1, 10⟩ : CacheEntry Nat)).1 →
        lookupKey c'.cache k' = lookupKey (ResponseCache.mk
          [("a", ⟨1, 10⟩), ("b", ⟨2, 20⟩)] 2 60 0 0 : ResponseCache Nat).cache k') ∧
      (("a", (⟨1, 10⟩ : CacheEntry Nat)).1 ≠ "b" →
        c'.cache.length + 1 = (ResponseCache.mk [("a", ⟨1, 10⟩), ("b", ⟨2, 20⟩)] 2 60 0 0 :
          ResponseCache Nat).max_size ∧
        lookupKey c'.cache ("a", (⟨1, 10⟩ : CacheEntry Nat)).1 = none) :=
  cache_set_update_at_capacity_C10
    (ResponseCache.mk [("a", ⟨1, 10⟩), ("b", ⟨2, 20⟩)] 2 60 0 0) "b" 5 none 0
    ⟨2, 20⟩ ("a", ⟨1, 10⟩) (by decide) (by decide) (by decide) (by decide)


/-! ## AlertingClient.send_alert (`backend/app/services/alerting/client.py`)

Each configured alerter object is modelled as a function from the alert
payload to an abstract outcome: the Python `await alerter.send_alert(...)`
either returns a boolean or raises; the surrounding `try/except` in
`send_alert` converts a raised exception into `False` for that channel and
moves on to the next one.  An unconfigured alerter is `none` (the attribute
is `None` and the `if self.x_alerter and ...` guard skips it).

Python's `(not channels or name in channels)` treats both `None` and the
empty list as "use every channel" (an empty list is falsy).
-/

inductive SendOutcome where
  | success
  | failure
  | raised
deriving DecidableEq

/-- Result recorded for a channel: the returned boolean, with a raised
exception caught and recorded as `False`. -/
def outcomeToBool : SendOutcome → Bool
  | .success => true
  | .failure => false
  | .raised => false

structure AlertingClient (A : Type) where
  email_alerter : Option (A → SendOutcome)
  slack_alerter : Option (A → SendOutcome)
  discord_alerter : Option (A → SendOutcome)

/-- Python `not channels or name in channels`. -/
def channelWanted (channels : Option (List String)) (name : String) : Bool :=
  match channels with
  | none => true
  | some cs => cs.isEmpty || cs.contains name

/-- One `if self.x_alerter and (...): try ... except ...` block of
`send_alert`: zero or one entry for this channel. -/
def tryChannel {A : Type} (alerter : Option (A → SendOutcome)) (name : String)
    (channels : Option (List String)) (a : A) : List (String × Bool) :=
  match alerter with
  | none => []
  | some f => if channelWanted channels name then [(name, outcomeToBool (f a))] else []

/-- Embeds `AlertingClient.send_alert(alert_data, channels)`: the `results` dict in
iteration order email, slack, discord. -/
def AlertingClient.send_alert {A : Type} (c : AlertingClient A) (alert_data : A)
    (channels : Option (List String)) : List (String × Bool) :=
  tryChannel c.email_alerter "email" channels alert_data ++
  tryChannel c.slack_alerter "slack" channels alert_data ++
  tryChannel c.discord_alerter "discord" channels alert_data

theorem tryChannel_mem_iff {A : Type} (alerter : Option (A → SendOutcome)) (name : String)
    (channels : Option (List String)) (a : A) (p : String × Bool) :
    p ∈ tryChannel alerter name channels a ↔
      ∃ f, alerter = some f ∧ channelWanted channels name = true ∧
        p = (name, outcomeToBool (f a)) := by
  rcases alerter with _ | f
  · simp [tryChannel]
  · by_cases hw : channelWanted channels name = true
    · simp [tryChannel, hw]
    · simp [tryChannel, hw]


theorem tryChannel_shape {A : Type} (alerter : Option (A → SendOutcome)) (name : String)
    (channels : Option (List String)) (a : A) :
    tryChannel alerter name channels a = [] ∨
      ∃ x, tryChannel alerter name channels a = [(name, x)] := by
  rcases alerter with _ | f
  · exact Or.inl rfl
  · by_cases hw : channelWanted channels name = true
    · exact Or.inr ⟨outcomeToBool (f a), by simp [tryChannel, hw]⟩
    · exact Or.inl (by simp [tryChannel, hw])

/-- C4: `send_alert` yields a result map with exactly one boolean entry per
configured alerter that the optional `channels` filter wants: a channel
appears iff it is configured and wanted, its value is the channel outcome
with a raised exception converted to `false`, channel names are unique and
drawn only from email/slack/discord, and an unconfigured channel never
appears.  The function is total: it never raises, even if every channel's
send raises. -/
theorem alerting_send_alert_C4 {A : Type} (c : AlertingClient A) (a : A)
    (channels : Option (List String)) :
    (∀ b, ("email", b) ∈ c.send_alert a channels ↔
      ∃ f, c.email_alerter = some f ∧ channelWanted channels "email" = true ∧
        b = outcomeToBool (f a)) ∧
    (∀ b, ("slack", b) ∈ c.send_alert a channels ↔
      ∃ f, c.slack_alerter = some f ∧ channelWanted channels "slack" = true ∧
        b = outcomeToBool (f a)) ∧
    (∀ b, ("discord", b) ∈ c.send_alert a channels ↔
      ∃ f, c.discord_alerter = some f ∧ channelWanted channels "discord" = true ∧
        b = outcomeToBool (f a)) ∧
    ((c.send_alert a channels).map Prod.fst).Nodup ∧
    (∀ p ∈ c.send_alert a channels,
      p.1 = "email" ∨ p.1 = "slack" ∨ p.1 = "discord") ∧
    outcomeToBool SendOutcome.raised = false := by
  refine ⟨?_, ?_, ?_, ?_, ?_, rfl⟩
  · intro b
    simp [AlertingClient.send_alert, List.mem_append, tryChannel_mem_iff,
      Prod.ext_iff]
  · intro b
    simp [AlertingClient.send_alert, List.mem_append, tryChannel_mem_iff,
      Prod.ext_iff]
  · intro b
    simp [AlertingClient.send_alert, List.mem_append, tryChannel_mem_iff,
      Prod.ext_iff]
  · rcases tryChannel_shape c.email_alerter "email" channels a with h1 | ⟨x1, h1⟩ <;>
      rcases tryChannel_shape c.slack_alerter "slack" channels a with h2 | ⟨x2, h2⟩ <;>
        rcases tryChannel_shape c.discord_alerter "discord" channels a with h3 | ⟨x3, h3⟩ <;>
          simp [AlertingClient.send_alert, h1, h2, h3]
  · intro p hp
    simp only [AlertingClient.send_alert, List.mem_append] at hp
    rcases hp with (hp | hp) | hp <;>
      obtain ⟨f, _, _, hpv⟩ := (tryChannel_mem_iff _ _ _ _ _).mp hp <;>
        rw [hpv] <;> simp

/-- A concrete client: email raises, slack succeeds, discord unconfigured. -/
def c4ClientExample : AlertingClient Nat :=
  ⟨some (fun _ => SendOutcome.raised), some (fun _ => SendOutcome.success), none⟩

/-- Witness for C4: the raising email channel is recorded as `false`, the
succeeding slack channel as `true`, and the unconfigured discord channel is
absent from the result map. -/
theorem alerting_send_alert_C4_witness :
    ("email", false) ∈ c4ClientExample.send_alert 0 none ∧
    ("slack", true) ∈ c4ClientExample.send_alert 0 none ∧
    (∀ b, ("discord", b) ∉ c4ClientExample.send_alert 0 none) := by
  have h := alerting_send_alert_C4 c4ClientExample 0 none
  refine ⟨(h.1 false).mpr ⟨fun _ => SendOutcome.raised, rfl, rfl, rfl⟩,
    (h.2.1 true).mpr ⟨fun _ => SendOutcome.success, rfl, rfl, rfl⟩, ?_⟩
  intro b hb
  obtain ⟨f, hf, _⟩ := (h.2.2.1 b).mp hb
  exact absurd hf (by simp [c4ClientExample])


/-! ## get_abuseipdb_score (`backend/app/services/enrichment/abuseipdb.py`)

The function's interaction with the outside world is abstracted into an
`HttpResult`: the single `client.get` either times out
(`httpx.TimeoutException`), fails at the transport level
(`httpx.RequestError`), or produces a response with a status code and a
parsed JSON body.  Of the body, the code inspects only whether `data` is a
dict, whether it has an `abuseConfidenceScore` (coerced with `int(...)`;
a malformed body or non-coercible score raises `ValueError`/`TypeError`,
both caught and mapped to `None`), and whether `isWhitelisted` is truthy.
`response.raise_for_status()` raises `httpx.HTTPStatusError` exactly on
non-2xx statuses; the `except` ladder converts every raised exception to
`None`, so the embedded function is total. -/

inductive AbuseBody where
  | malformed
  | dataDict (abuseConfidenceScore : Option Int) (isWhitelisted : Bool)
deriving DecidableEq

inductive HttpResult where
  | timeout
  | requestError
  | response (status : Nat) (body : AbuseBody)
deriving DecidableEq

/-- Embeds `get_abuseipdb_score(ip_address)` for one call, given whether the API key
is configured and the outcome of the HTTP request. -/
def get_abuseipdb_score (apiKeyConfigured : Bool) (r : HttpResult) : Option Int :=
  if apiKeyConfigured = false then none
  else
    match r with
    | .timeout => none
    | .requestError => none
    | .response status body =>
      if status = 429 then none
      else if ¬ (200 ≤ status ∧ status ≤ 299) then none
      else
        match body with
        | .malformed => none
        | .dataDict score wl =>
          match score with
          | some s => some s
          | none => if wl then some 0 else none

/-- C5: the reputation lookup never yields anything but a clean
`Option Int`: `None` when the key is unconfigured, on timeout, transport
error, HTTP 429 (logged and absorbed, not raised), any other non-2xx status,
a malformed body, or a score-less non-whitelisted body; the score itself on a
2xx body carrying one; and `0` for a whitelisted 2xx body without a score. -/
theorem abuseipdb_score_error_handling_C5 :
    (∀ r, get_abuseipdb_score false r = none) ∧
    (∀ k, get_abuseipdb_score k HttpResult.timeout = none) ∧
    (∀ k, get_abuseipdb_score k HttpResult.requestError = none) ∧
    (∀ k body, get_abuseipdb_score k (HttpResult.response 429 body) = none) ∧
    (∀ k status body, ¬ (200 ≤ status ∧ status ≤ 299) →
      get_abuseipdb_score k (HttpResult.response status body) = none) ∧
    (∀ status s wl, 200 ≤ status → status ≤ 299 →
      get_abuseipdb_score true
        (HttpResult.response status (AbuseBody.dataDict (some s) wl)) = some s) ∧
    (∀ status, 200 ≤ status → status ≤ 299 →
      get_abuseipdb_score true
        (HttpResult.response status (AbuseBody.dataDict none true)) = some 0) ∧
    (∀ status, 200 ≤ status → status ≤ 299 →
      get_abuseipdb_score true
        (HttpResult.response status (AbuseBody.dataDict none false)) = none) ∧
    (∀ status, get_abuseipdb_score true
      (HttpResult.response status AbuseBody.malformed) = none) := by
  refine ⟨fun r => rfl, ?_, ?_, ?_, ?_, ?_, ?_, ?_, ?_⟩
  · intro k
    by_cases hk : k = false <;> simp [get_abuseipdb_score, hk]
  · intro k
    by_cases hk : k = false <;> simp [get_abuseipdb_score, hk]
  · intro k body
    by_cases hk : k = false <;> simp [get_abuseipdb_score, hk]
  · intro k status body hns
    by_cases hk : k = false
    · simp [get_abuseipdb_score, hk]
    · by_cases h429 : status = 429
      · simp [get_abuseipdb_score, hk, h429]
      · simp [get_abuseipdb_score, hk, h429, hns]
  · intro status s wl h1 h2
    have h429 : ¬ status = 429 := by omega
    simp [get_abuseipdb_score, h429, h1, h2]
  · intro status h1 h2
    have h429 : ¬ status = 429 := by omega
    simp [get_abuseipdb_score, h429, h1, h2]
  · intro status h1 h2
    have h429 : ¬ status = 429 := by omega
    simp [get_abuseipdb_score, h429, h1, h2]
  · intro status
    by_cases h429 : status = 429
    · simp [get_abuseipdb_score, h429]
    · by_cases hns : 200 ≤ status ∧ status ≤ 299
      · simp [get_abuseipdb_score, h429, hns]
      · simp [get_abuseipdb_score, h429, hns]

/-- Witness for C5 at concrete inputs: a 429 is absorbed to `None`, a 2xx
whitelisted response without a score normalises to `0`, a 5xx with a
malformed body yields `None`, and a plain 2xx score is passed through. -/
theorem abuseipdb_score_error_handling_C5_witness :
    get_abuseipdb_score true (HttpResult.response 429 (AbuseBody.dataDict (some 50) false))
      = none ∧
    get_abuseipdb_score true (HttpResult.response 200 (AbuseBody.dataDict none true))
      = some 0 ∧
    get_abuseipdb_score true (HttpResult.response 500 AbuseBody.malformed) = none ∧
    get_abuseipdb_score true (HttpResult.response 200 (AbuseBody.dataDict (some 50) false))
      = some 50 :=
  ⟨abuseipdb_score_error_handling_C5.2.2.2.1 true (AbuseBody.dataDict (some 50) false),
    abuseipdb_score_error_handling_C5.2.2.2.2.2.2.1 200 (by omega) (by omega),
    abuseipdb_score_error_handling_C5.2.2.2.2.2.2.2.2 500,
    abuseipdb_score_error_handling_C5.2.2.2.2.2.1 200 50 false (by omega) (by omega)⟩


/-! ## GeoIP lookup with `lru_cache`
(`backend/app/services/enrichment/geoip.py`)

`_get_geoip_data_sync` is wrapped in `functools.lru_cache(maxsize=1024)`
keyed by the raw IP string.  The memo is modelled as a most-recent-first
association list: a hit moves the entry to the front, a miss computes the
body, inserts at the front and truncates to 1024 entries (evicting the least
recently used).  The function body returns `None` without touching the
reader when `geoip_reader` is unset, and otherwise performs exactly one
`geoip_reader.city(...)` call whose outcome (`AddressNotFoundError`,
`ValueError` and any other exception are caught and turned into `None`) is
abstracted as `reader : String → Option G`.  `readerCalls` counts the
`city` invocations.  `get_geoip_data` short-circuits to `None` before even
entering the cached function when the reader is unset. -/

structure GeoState (G : Type) where
  cache : List (String × Option G)
  readerCalls : Nat

def GeoState.empty (G : Type) : GeoState G := ⟨[], 0⟩

/-- Embeds `_get_geoip_data_sync(ip_address)` with its `lru_cache` wrapper. -/
def geoip_data_sync {G : Type} (readerPresent : Bool) (reader : String → Option G)
    (st : GeoState G) (ip : String) : Option G × GeoState G :=
  match lookupKey st.cache ip with
  | some v => (v, { st with cache := (ip, v) :: eraseKey st.cache ip })
  | none =>
    (if readerPresent then reader ip else none,
      { cache := ((ip, if readerPresent then reader ip else none) :: st.cache).take 1024,
        readerCalls := if readerPresent then st.readerCalls + 1 else st.readerCalls })

/-- Embeds `get_geoip_data(ip_address)`: early `None` when no reader is loaded,
otherwise the cached sync lookup (run in an executor). -/
def get_geoip_data {G : Type} (readerPresent : Bool) (reader : String → Option G)
    (st : GeoState G) (ip : String) : Option G × GeoState G :=
  if readerPresent then geoip_data_sync readerPresent reader st ip else (none, st)

/-- The fixed external context of one enrichment run. -/
structure EnrichWorld (G : Type) where
  readerPresent : Bool
  reader : String → Option G
  apiKeyConfigured : Bool
  httpResponder : String → HttpResult

/-- Mutable state observable across enrichment calls: the geo memo and the
number of HTTP requests issued to the reputation API. -/
structure EnrichState (G : Type) where
  geo : GeoState G
  abuseHttpRequests : Nat

def EnrichState.empty (G : Type) : EnrichState G := ⟨GeoState.empty G, 0⟩

/-- The enrichment step of `process_honeypot_data`: `await get_geoip_data(ip)`
then `await get_abuseipdb_score(ip)`.  The reputation lookup has no cache:
whenever the API key is configured it issues one fresh HTTP request. -/
def enrich_ip {G : Type} (w : EnrichWorld G) (st : EnrichState G) (ip : String) :
    (Option G × Option Int) × EnrichState G :=
  ((
    (get_geoip_data w.readerPresent w.reader st.geo ip).1,
    get_abuseipdb_score w.apiKeyConfigured (w.httpResponder ip)),
    { geo := (get_geoip_data w.readerPresent w.reader st.geo ip).2,
      abuseHttpRequests :=
        if w.apiKeyConfigured then st.abuseHttpRequests + 1 else st.abuseHttpRequests })

theorem geoip_sync_calls {G : Type} (readerPresent : Bool) (reader : String → Option G)
    (st : GeoState G) (ip : String) :
    (geoip_data_sync readerPresent reader st ip).2.readerCalls ≤ st.readerCalls + 1 ∧
    (geoip_data_sync readerPresent reader
        (geoip_data_sync readerPresent reader st ip).2 ip).2.readerCalls
      = (geoip_data_sync readerPresent reader st ip).2.readerCalls := by
  rcases hl : lookupKey st.cache ip with _ | v
  · -- first call misses, computes, caches at the front; second call hits
    have hstep : geoip_data_sync readerPresent reader st ip
        = (if readerPresent then reader ip else none,
          ⟨((ip, if readerPresent then reader ip else none) :: st.cache).take 1024,
            if readerPresent then st.readerCalls + 1 else st.readerCalls⟩) := by
      unfold geoip_data_sync
      rw [hl]
    rw [hstep]
    constructor
    · by_cases hr : readerPresent <;> simp [hr]
    · have htake : ((ip, if readerPresent then reader ip else none) :: st.cache).take 1024
          = (ip, if readerPresent then reader ip else none) :: st.cache.take 1023 :=
        List.take_succ_cons
      have hhit : lookupKey
          (((ip, if readerPresent then reader ip else none) :: st.cache).take 1024) ip
          = some (if readerPresent then reader ip else none) := by
        rw [htake, lookupKey_cons, if_pos rfl]
      unfold geoip_data_sync
      rw [hhit]
  · -- first call hits and moves the entry to the front; second call hits
    have hstep : geoip_data_sync readerPresent reader st ip
        = (v, ⟨(ip, v) :: eraseKey st.cache ip, st.readerCalls⟩) := by
      unfold geoip_data_sync
      rw [hl]
    rw [hstep]
    constructor
    · show st.readerCalls ≤ st.readerCalls + 1
      omega
    · have hhit : lookupKey ((ip, v) :: eraseKey st.cache ip) ip = some v := by
        rw [lookupKey_cons, if_pos rfl]
      unfold geoip_data_sync
      rw [hhit]

/-- Concrete world for the C8 counterexample: reader loaded, API key set,
providers always answer. -/
def c8World : EnrichWorld Nat :=
  ⟨true, fun _ => some 1, true,
    fun _ => HttpResult.response 200 (AbuseBody.dataDict (some 50) false)⟩

/-- C8 counterexample: two consecutive `enrich` calls for the same IP issue
*two* HTTP requests to the reputation provider — `get_abuseipdb_score` has no
cache at all, so the "at most once ... reputation provider" part of the claim
is false (the geo provider is indeed called only once). -/
theorem enrich_reputation_uncached_C8_counterexample :
    (enrich_ip c8World
        (enrich_ip c8World (EnrichState.empty Nat) "203.0.113.7").2
        "203.0.113.7").2.abuseHttpRequests = 2 ∧
    ¬ ((enrich_ip c8World
        (enrich_ip c8World (EnrichState.empty Nat) "203.0.113.7").2
        "203.0.113.7").2.abuseHttpRequests ≤ 1) ∧
    (enrich_ip c8World
        (enrich_ip c8World (EnrichState.empty Nat) "203.0.113.7").2
        "203.0.113.7").2.geo.readerCalls = 1 := by
  decide

/-- C8 (amended): repeated enrichment of one IP invokes the geolocation
reader at most once — the first call memoises the result in the `lru_cache`
keyed by the raw IP string and the second call is a cache hit that performs
no reader call — while the reputation lookup is uncached: every enrichment
call with a configured API key issues one fresh HTTP request. -/
theorem enrich_geo_cached_reputation_uncached_C8 {G : Type} (w : EnrichWorld G)
    (st : EnrichState G) (ip : String) :
    ((enrich_ip w st ip).2.geo.readerCalls ≤ st.geo.readerCalls + 1) ∧
    ((enrich_ip w (enrich_ip w st ip).2 ip).2.geo.readerCalls
        = (enrich_ip w st ip).2.geo.readerCalls) ∧
    ((enrich_ip w st ip).2.abuseHttpRequests
        = st.abuseHttpRequests + (if w.apiKeyConfigured then 1 else 0)) ∧
    ((enrich_ip w (enrich_ip w st ip).2 ip).2.abuseHttpRequests
        = (enrich_ip w st ip).2.abuseHttpRequests
          + (if w.apiKeyConfigured then 1 else 0)) := by
  have habuse : ∀ (s : EnrichState G), (enrich_ip w s ip).2.abuseHttpRequests
      = s.abuseHttpRequests + (if w.apiKeyConfigured then 1 else 0) := by
    intro s
    unfold enrich_ip
    by_cases hk : w.apiKeyConfigured <;> simp [hk]
  have hgeo : ∀ (s : EnrichState G), (enrich_ip w s ip).2.geo
      = (get_geoip_data w.readerPresent w.reader s.geo ip).2 := fun s => rfl
  by_cases hr : w.readerPresent
  · have hunfold : ∀ (g : GeoState G), (get_geoip_data w.readerPresent w.reader g ip).2
        = (geoip_data_sync w.readerPresent w.reader g ip).2 := by
      intro g
      unfold get_geoip_data
      rw [if_pos hr]
    obtain ⟨h1, h2⟩ := geoip_sync_calls w.readerPresent w.reader st.geo ip
    refine ⟨?_, ?_, habuse st, habuse _⟩
    · rw [hgeo, hunfold]
      exact h1
    · simp only [hgeo, hunfold]
      exact h2
  · have hunfold : ∀ (g : GeoState G), (get_geoip_data w.readerPresent w.reader g ip).2 = g := by
      intro g
      unfold get_geoip_data
      rw [if_neg hr]
    refine ⟨?_, ?_, habuse st, habuse _⟩
    · rw [hgeo, hunfold]
      omega
    · simp only [hgeo, hunfold]


/-- Witness for the amended C8 at a concrete world and IP. -/
theorem enrich_geo_cached_reputation_uncached_C8_witness :
    ((enrich_ip c8World (EnrichState.empty Nat) "1.2.3.4").2.geo.readerCalls
        ≤ (EnrichState.empty Nat).geo.readerCalls + 1) ∧
    ((enrich_ip c8World (enrich_ip c8World (EnrichState.empty Nat) "1.2.3.4").2
        "1.2.3.4").2.geo.readerCalls
      = (enrich_ip c8World (EnrichState.empty Nat) "1.2.3.4").2.geo.readerCalls) ∧
    ((enrich_ip c8World (EnrichState.empty Nat) "1.2.3.4").2.abuseHttpRequests
      = (EnrichState.empty Nat).abuseHttpRequests
        + (if c8World.apiKeyConfigured then 1 else 0)) ∧
    ((enrich_ip c8World (enrich_ip c8World (EnrichState.empty Nat) "1.2.3.4").2
        "1.2.3.4").2.abuseHttpRequests
      = (enrich_ip c8World (EnrichState.empty Nat) "1.2.3.4").2.abuseHttpRequests
        + (if c8World.apiKeyConfigured then 1 else 0)) :=
  enrich_geo_cached_reputation_uncached_C8 c8World (EnrichState.empty Nat) "1.2.3.4"


/-! ## IP address parsing and the `/honeypot` ingestion endpoint
(`backend/app/schemas/honeypot.py`, `backend/app/api/api_v1/endpoints/honeypot.py`,
`backend/app/services/validation.py`)

`HoneypotData.source_ip` is a pydantic `IPvAnyAddress`: FastAPI validates the
request body before the handler runs, and `IPvAnyAddress` tries
`ipaddress.IPv4Address(value)` then `ipaddress.IPv6Address(value)`.
`validate_ip` in `services/validation.py` calls `ipaddress.ip_address`, which
performs the same two attempts.  The textual grammar below embeds CPython's
`ipaddress` module (the dependency both call into): dotted-quad IPv4 with
1–3 decimal digits per octet, no leading zeros, each `<= 255`; IPv6 as
colon-separated hextets of 1–4 hex digits with at most one `::`, an optional
embedded dotted-quad tail, and an optional non-empty `%zone` suffix
containing no further `%`.  All recursion is structural so the parser
evaluates inside the kernel. -/

/-- Python `str.split(sep)` for a single-character separator, over the
character list: always returns at least one (possibly empty) group. -/
def splitOnChar (sep : Char) : List Char → List (List Char)
  | [] => [[]]
  | c :: cs =>
    match splitOnChar sep cs with
    | [] => if c = sep then [[], [c]] else [[c]]
    | g :: gs => if c = sep then [] :: g :: gs else (c :: g) :: gs

/-- Embeds `ipaddress._parse_octet`: 1–3 ASCII decimal digits, no leading zero
unless the octet is exactly `0`, value at most 255. -/
def parseOctet (cs : List Char) : Option Nat :=
  if cs.isEmpty then none
  else if ¬ cs.all (fun ch => ch.isDigit) then none
  else if 3 < cs.length then none
  else if 1 < cs.length ∧ cs.head? = some '0' then none
  else
    let n := cs.foldl (fun acc ch => acc * 10 + (ch.toNat - 48)) 0
    if 255 < n then none else some n

/-- Embeds `ipaddress.IPv4Address._ip_int_from_string`: exactly four octets. -/
def ipv4_int (cs : List Char) : Option Nat :=
  if cs.isEmpty then none
  else
    match splitOnChar '.' cs with
    | [a, b, c, d] =>
      match parseOctet a, parseOctet b, parseOctet c, parseOctet d with
      | some pa, some pb, some pc, some pd =>
        some (((pa * 256 + pb) * 256 + pc) * 256 + pd)
      | _, _, _, _ => none
    | _ => none

def isHexDigitChar (ch : Char) : Bool :=
  ch.isDigit || ('a' ≤ ch && ch ≤ 'f') || ('A' ≤ ch && ch ≤ 'F')

def hexVal (ch : Char) : Nat :=
  if ch.isDigit then ch.toNat - 48
  else if 'a' ≤ ch then ch.toNat - 87
  else ch.toNat - 55

/-- A piece of the colon-split address: either raw text, or one of the two
hextets synthesised from an embedded IPv4 tail (those render via `'%x'`, so
they are never empty). -/
inductive IpPart where
  | raw (cs : List Char)
  | num (n : Nat)
deriving DecidableEq

def partIsEmpty : IpPart → Bool
  | .raw cs => cs.isEmpty
  | .num _ => false

/-- Embeds `ipaddress.IPv6Address._parse_hextet`: 1–4 hex digits (the empty string
passes the hex-digit and length checks but `int('', 16)` raises). -/
def parseHextet : IpPart → Option Nat
  | .num n => some n
  | .raw cs =>
    if ¬ cs.all isHexDigitChar then none
    else if 4 < cs.length then none
    else if cs.isEmpty then none
    else some (cs.foldl (fun acc ch => acc * 16 + hexVal ch) 0)

def parseHextets : List IpPart → Option (List Nat)
  | [] => some []
  | p :: ps =>
    match parseHextet p, parseHextets ps with
    | some n, some ns => some (n :: ns)
    | _, _ => none

def emptyAt (parts : List IpPart) (i : Nat) : Bool :=
  match parts[i]? with
  | some p => partIsEmpty p
  | none => false

def hextetsFold (acc : Nat) : List Nat → Nat
  | [] => acc
  | h :: hs => hextetsFold (acc * 65536 + h) hs

/-- Assemble the 128-bit value: `parts_hi` leading hextets, a shift of
`16 * parts_skipped` bits for the `::`, then `parts_lo` trailing hextets. -/
def assembleV6 (parts : List IpPart) (hi skipped lo : Nat) : Option Nat :=
  match parseHextets (parts.take hi), parseHextets (parts.drop (parts.length - lo)) with
  | some hs, some ls => some (hextetsFold ((hextetsFold 0 hs) * 65536 ^ skipped) ls)
  | _, _ => none

/-- The `skip_index` logic of `ipaddress.IPv6Address._ip_int_from_string`
after the embedded-IPv4 rewrite: at most 9 parts, at most one empty part in
the interior (the `::`), a leading or trailing empty part only as half of a
leading/trailing `::`, and at least one zero group actually skipped. -/
def ipv6_fromParts (parts : List IpPart) : Option Nat :=
  if 9 < parts.length then none
  else
    match (List.range parts.length).filter
        (fun i => decide (0 < i) && decide (i + 1 < parts.length) && emptyAt parts i) with
    | [] =>
      if parts.length ≠ 8 then none
      else assembleV6 parts 8 0 0
    | [skip] =>
      match (if emptyAt parts 0 then (if skip = 1 then some 0 else none)
          else some skip : Option Nat) with
      | none => none
      | some hi =>
        match (if emptyAt parts (parts.length - 1) then
            (if parts.length - skip - 1 = 1 then some 0 else none)
          else some (parts.length - skip - 1) : Option Nat) with
        | none => none
        | some lo =>
          if 8 - (hi + lo) < 1 then none
          else assembleV6 parts hi (8 - (hi + lo)) lo
    | _ => none

/-- Embeds `ipaddress.IPv6Address._ip_int_from_string`: split on `:`, require at
least 3 parts, rewrite an embedded dotted-quad tail into two numeric
hextets, then resolve the `::`. -/
def ipv6_int (cs : List Char) : Option Nat :=
  if cs.isEmpty then none
  else
    let parts0 := splitOnChar ':' cs
    if parts0.length < 3 then none
    else
      match parts0.getLast? with
      | none => none
      | some lastP =>
        if lastP.contains '.' then
          match ipv4_int lastP with
          | none => none
          | some v4 =>
            ipv6_fromParts (parts0.dropLast.map IpPart.raw
              ++ [IpPart.num (v4 / 65536), IpPart.num (v4 % 65536)])
        else ipv6_fromParts (parts0.map IpPart.raw)

/-- Embeds the `ipaddress.IPv6Address` constructor step: an optional scope suffix after the
first `%`; the scope must be non-empty and contain no further `%`. -/
def ipv6_parse (cs : List Char) : Option (Nat × Option (List Char)) :=
  match splitOnChar '%' cs with
  | [addr] => (ipv6_int addr).map (fun n => (n, none))
  | [addr, scope] =>
    if scope.isEmpty then none
    else (ipv6_int addr).map (fun n => (n, some scope))
  | _ => none

inductive IpAddr where
  | v4 (n : Nat)
  | v6 (n : Nat) (zone : Option (List Char))
deriving DecidableEq

/-- Embeds `ipaddress.ip_address` and pydantic `IPvAnyAddress`: try IPv4, then
IPv6; `None` models the `ValueError` both raise on failure. -/
def ip_address (s : String) : Option IpAddr :=
  match ipv4_int s.data with
  | some n => some (IpAddr.v4 n)
  | none => (ipv6_parse s.data).map (fun p => IpAddr.v6 p.1 p.2)

/-- Embeds `validate_ip` from `services/validation.py`: `ipaddress.ip_address(ip)`
inside `try/except ValueError`. -/
def validate_ip (s : String) : Bool :=
  (ip_address s).isSome


/-- Join character groups with a separator (Python `sep.join`). -/
def joinChar (sep : Char) : List (List Char) → List Char
  | [] => []
  | [g] => g
  | g :: gs => g ++ sep :: joinChar sep gs

/-- State of the longest-zero-run scan in
`ipaddress._IPAddressBase._compress_hextets`: the best run seen so far and
the current run; `min` ties go to the first run because the best is replaced
only on a strictly longer current run. -/
structure ZeroRunState where
  bestStart : Option Nat
  bestLen : Nat
  curStart : Option Nat
  curLen : Nat

def zeroRunStep (st : ZeroRunState) (iv : Nat × Nat) : ZeroRunState :=
  if iv.2 = 0 then
    let s := match st.curStart with | none => iv.1 | some s => s
    let l := st.curLen + 1
    if st.bestLen < l then ⟨some s, l, some s, l⟩
    else ⟨st.bestStart, st.bestLen, some s, l⟩
  else ⟨st.bestStart, st.bestLen, none, 0⟩

/-- Embeds `str(IPv6Address)`: lowercase hextets without padding, the first longest
run of at least two zero hextets collapsed to `::`. -/
def ipv6_str_chars (n : Nat) : List Char :=
  let hx := (List.range 8).map (fun i => n / 65536 ^ (7 - i) % 65536)
  let strs := hx.map (fun h => Nat.toDigits 16 h)
  let st := ((List.range 8).zip hx).foldl zeroRunStep ⟨none, 0, none, 0⟩
  match st.bestStart with
  | some s =>
    if 1 < st.bestLen then
      let e := s + st.bestLen
      let strs1 := if e = 8 then strs ++ [[]] else strs
      let strs2 := strs1.take s ++ [[]] ++ strs1.drop e
      joinChar ':' (if s = 0 then [] :: strs2 else strs2)
    else joinChar ':' strs
  | none => joinChar ':' strs

/-- Embeds `str(...)` of a parsed address, as passed by `process_honeypot_data` to
`validate_ip` (`ip_str = str(data.source_ip)`): the canonical dotted quad or
compressed IPv6 form, with the `%zone` suffix when present. -/
def ip_str : IpAddr → String
  | .v4 n => String.mk (joinChar '.'
      ([n / 16777216 % 256, n / 65536 % 256, n / 256 % 256, n % 256].map
        (fun o => Nat.toDigits 10 o)))
  | .v6 n z => String.mk (ipv6_str_chars n ++
      (match z with | none => [] | some zs => '%' :: zs))

/-- External outcomes that `process_honeypot_data` depends on: whether
`crud.alert.create` succeeds for the main alert, and whether the fallback
"Honeypot Processing Error" record can be written. -/
structure PipelineWorld where
  dbCreateOk : Bool
  errorDbOk : Bool
deriving DecidableEq

/-- Observable side effects of one ingestion: alert rows written and
`alert_client.send_alert` invocations. -/
structure PipelineEffects where
  alertsPersisted : Nat
  dispatchCalls : Nat
deriving DecidableEq

inductive HttpResponse where
  | accepted202
  | unprocessable422
deriving DecidableEq

/-- Embeds `process_honeypot_data(db, data)`: re-validate `str(data.source_ip)` and
silently drop on failure (no record, no notification); otherwise enrich,
persist the alert and dispatch, with a DB failure diverted into a
best-effort "processing error" record and no dispatch. -/
def process_honeypot_data (w : PipelineWorld) (sourceIp : IpAddr) : PipelineEffects :=
  if validate_ip (ip_str sourceIp) = false then ⟨0, 0⟩
  else if w.dbCreateOk then ⟨1, 1⟩
  else if w.errorDbOk then ⟨1, 0⟩
  else ⟨0, 0⟩

/-- Embeds `POST /honeypot` (`receive_honeypot_trigger`): FastAPI validates the
`HoneypotData` body first — a `source_ip` that `IPvAnyAddress` rejects makes
the request fail with HTTP 422 before the handler runs, so no background
task is ever queued; a valid body is acknowledged with HTTP 202 and the
processing runs as a background task. -/
def receive_honeypot_trigger (w : PipelineWorld) (sourceIpRaw : String) :
    HttpResponse × PipelineEffects :=
  match ip_address sourceIpRaw with
  | none => (HttpResponse.unprocessable422, ⟨0, 0⟩)
  | some ip => (HttpResponse.accepted202, process_honeypot_data w ip)


/-- C6 counterexample: submitting the malformed IP `"not-an-ip"` does *not*
yield HTTP 202 — pydantic's `IPvAnyAddress` rejects the body during request
validation, so FastAPI answers 422 and no background task ever runs.  (No
record is persisted and nothing is dispatched, but not for the claimed
reason.) -/
theorem honeypot_malformed_ip_C6_counterexample :
    receive_honeypot_trigger ⟨true, true⟩ "not-an-ip"
      = (HttpResponse.unprocessable422, ⟨0, 0⟩) ∧
    (receive_honeypot_trigger ⟨true, true⟩ "not-an-ip").1 ≠ HttpResponse.accepted202 := by
  decide

/-- C6 (amended): a request whose source-IP string fails IP parsing is
rejected with HTTP 422 at request validation, with zero alerts persisted and
zero notifications dispatched — the drop happens before the background
`validate_ip` check, which is unreachable for malformed input; only a
well-formed source IP is acknowledged with HTTP 202. -/
theorem honeypot_malformed_ip_C6 (w : PipelineWorld) (s : String) :
    (ip_address s = none →
      receive_honeypot_trigger w s = (HttpResponse.unprocessable422, ⟨0, 0⟩)) ∧
    (∀ ip, ip_address s = some ip →
      (receive_honeypot_trigger w s).1 = HttpResponse.accepted202) := by
  constructor
  · intro h
    unfold receive_honeypot_trigger
    rw [h]
  · intro ip h
    unfold receive_honeypot_trigger
    rw [h]

/-- Witness for the amended C6: `"not-an-ip"` is rejected with 422 and no
effects; the well-formed `"203.0.113.7"` is acknowledged with 202. -/
theorem honeypot_malformed_ip_C6_witness :
    receive_honeypot_trigger ⟨true, true⟩ "not-an-ip"
      = (HttpResponse.unprocessable422, ⟨0, 0⟩) ∧
    (receive_honeypot_trigger ⟨true, true⟩ "203.0.113.7").1 = HttpResponse.accepted202 :=
  ⟨(honeypot_malformed_ip_C6 ⟨true, true⟩ "not-an-ip").1 (by decide),
    (honeypot_malformed_ip_C6 ⟨true, true⟩ "203.0.113.7").2 (IpAddr.v4 3405803783)
      (by decide)⟩

end TwinSecure
